import Mathlib

/-!
Verification of the Dump Ingestion & Replay Engine
(`DB Migration using sql file/dump.py`).

The statement tokenizer `_sql_statement_stream` is embedded as a pure
function over lists of characters (one list per input line, as Python's
text-stream iteration yields lines), and the replay driver
`migrate_sql_to_mysql` as explicit state-passing recursion in which the
destination database is abstracted by an outcome oracle (the result of
each `cur.execute` call) and the possible failure points of the original
code (source opening, mid-iteration exceptions, the best-effort
foreign-key re-enabling) are explicit parameters.
-/

namespace DumpTool

/-- Python whitespace, as used by `str.strip()` / `str.rstrip()`. -/
def pySpace (c : Char) : Bool :=
  c == ' ' || c == '\t' || c == '\n' || c == '\r' || c == '\x0b' || c == '\x0c'

/-- Python `s.lstrip()` on a list of characters. -/
def ltrim (l : List Char) : List Char := l.dropWhile pySpace

/-- Python `s.rstrip()` on a list of characters. -/
def rtrim (l : List Char) : List Char := (l.reverse.dropWhile pySpace).reverse

/-- Python `s.strip()` on a list of characters. -/
def pyStrip (l : List Char) : List Char := rtrim (ltrim l)

/-- Embedding of Python `line.find(pat)` followed by slicing: returns the
part before the first occurrence of `pat` and the part after it, or `none`
when `pat` does not occur (`find` returning `-1`). -/
def splitFirst (pat : List Char) : List Char → Option (List Char × List Char)
  | [] => if pat.isPrefixOf ([] : List Char) then some ([], []) else none
  | c :: cs =>
    if pat.isPrefixOf (c :: cs) then some ([], (c :: cs).drop pat.length)
    else
      match splitFirst pat cs with
      | some (pre, post) => some (c :: pre, post)
      | none => none

/-- The inline block-comment removal loop of `_sql_statement_stream`
(`while "/*" in line: ...`), fuelled.  Each iteration of the Python loop
either removes one `/* ... */` span (shrinking the line by at least four
characters) or discards the rest of the line and enters block-comment
state (`none`), so `line.length` is always enough fuel; this is proved by
`stripInline_eq` below, which shows the fuelled definition satisfies the
loop's defining equations. -/
def stripInlineGo : Nat → List Char → Option (List Char)
  | 0, l => some l
  | fuel + 1, l =>
    match splitFirst ['/', '*'] l with
    | none => some l
    | some (x, rest) =>
      match splitFirst ['*', '/'] rest with
      | none => none
      | some (_, z) => stripInlineGo fuel (x ++ z)

/-- Inline block-comment removal: `some line` with all same-line
`/* ... */` spans removed, or `none` when an unterminated `/*` is found
(the remainder of the line is discarded and block-comment state is
entered; the Python code then `continue`s, dropping the whole line). -/
def stripInline (l : List Char) : Option (List Char) := stripInlineGo l.length l

/-- The scanner state of `_sql_statement_stream`: `current_delim`, the
accumulated `buf` (kept joined, as it is only ever used via
`"".join(buf)`), and `in_block_comment`. -/
structure TokState where
  currentDelim : List Char
  buf : List Char
  inBlockComment : Bool
deriving DecidableEq

/-- Initial scanner state: delimiter `;`, empty buffer, not in a comment. -/
def initTokState : TokState := ⟨[';'], [], false⟩

/-- The `delim_token = "DELIMITER "` constant. -/
def delimToken : List Char := ['D', 'E', 'L', 'I', 'M', 'I', 'T', 'E', 'R', ' ']

/-- Processing of one line after block-comment continuation handling:
inline comment removal, blank-line skip, `DELIMITER` directive, line
comments, accumulation and the trailing-delimiter check.  Returns the new
state and the statements yielded while processing this line. -/
def processLineBody (delim : List Char) (buf : List Char) (line : List Char) :
    TokState × List (List Char) :=
  match stripInline line with
  | none => (⟨delim, buf, true⟩, [])
  | some line2 =>
    let check := pyStrip line2
    if check = [] then (⟨delim, buf, false⟩, [])
    else if delimToken.isPrefixOf (check.map Char.toUpper) then
      let out := if buf = [] then [] else if pyStrip buf = [] then [] else [pyStrip buf]
      (⟨pyStrip (check.drop delimToken.length), [], false⟩, out)
    else if ['-', '-'].isPrefixOf check || ['#'].isPrefixOf check then
      (⟨delim, buf, false⟩, [])
    else
      let joined := buf ++ line2
      let test := rtrim joined
      if delim ≠ [] ∧ delim.isSuffixOf test then
        let stmt := pyStrip (test.take (test.length - delim.length))
        (⟨delim, [], false⟩, if stmt = [] then [] else [stmt])
      else (⟨delim, joined, false⟩, [])

/-- One iteration of the `for raw_line in text_stream` loop of
`_sql_statement_stream`: block-comment continuation first, then the rest
of the per-line processing. -/
def processLine (st : TokState) (rawLine : List Char) : TokState × List (List Char) :=
  if st.inBlockComment then
    match splitFirst ['*', '/'] rawLine with
    | none => (st, [])
    | some (_, after) => processLineBody st.currentDelim st.buf after
  else processLineBody st.currentDelim st.buf rawLine

/-- The whole generator from a given state: process each line in order,
then flush the remaining buffer (trimmed) if non-empty. -/
def streamAux (st : TokState) : List (List Char) → List (List Char)
  | [] => if pyStrip st.buf = [] then [] else [pyStrip st.buf]
  | l :: ls =>
    let r := processLine st l
    r.2 ++ streamAux r.1 ls

/-- `_sql_statement_stream`: the statement tokenizer, taking the decoded
stream as a list of raw lines. -/
def sqlStatementStream (lines : List (List Char)) : List (List Char) :=
  streamAux initTokState lines

/-! ## Replay driver (`migrate_sql_to_mysql`) -/

/-- The mutable counters of the replay loop: `applied`, `failed`, `batch`,
the ordered log of data commits (recording the value of `applied` at the
moment of each `conn.commit()` inside the statement loop and the final
commit), and the ordered list of failing attempt indices (the per-failure
error report printed by the loop). -/
structure ReplayState where
  applied : Nat
  failed : Nat
  batch : Nat
  commitLog : List Nat
  failures : List Nat
deriving DecidableEq

/-- Counters at the start of the loop (`applied = 0`, `failed = 0`,
`batch = 0`). -/
def initReplayState : ReplayState := ⟨0, 0, 0, [], []⟩

/-- `conn.commit(); batch = 0` at a periodic commit point. -/
def commitNow (st : ReplayState) : ReplayState :=
  { st with commitLog := st.commitLog ++ [st.applied], batch := 0 }

/-- The `for stmt in stmt_iter` loop of `migrate_sql_to_mysql`, followed by
the final `if batch > 0: conn.commit()`.  `outcome i` tells whether the
`i`-th `cur.execute(stmt)` call succeeds (`mysql.Error` otherwise);
`crashAt = some i` models an exception other than a statement error
(e.g. a stream read error) raised when pulling the `i`-th statement.
Returns the final counters, whether the loop was left by an uncaught
exception (aborted), and how many statements were attempted. -/
def replayGo (outcome : Nat → Bool) (stopOnError : Bool) (commitEvery : Nat)
    (crashAt : Option Nat) :
    List (List Char) → Nat → ReplayState → ReplayState × Bool × Nat
  | [], _, st =>
    if st.batch > 0 then ({ st with commitLog := st.commitLog ++ [st.applied] }, false, 0)
    else (st, false, 0)
  | _ :: rest, idx, st =>
    if crashAt = some idx then (st, true, 0)
    else if outcome idx then
      let st1 := { st with applied := st.applied + 1, batch := st.batch + 1 }
      let st2 := if st.batch + 1 ≥ commitEvery then commitNow st1 else st1
      let r := replayGo outcome stopOnError commitEvery crashAt rest (idx + 1) st2
      (r.1, r.2.1, r.2.2 + 1)
    else
      let st1 := { st with failed := st.failed + 1, failures := st.failures ++ [idx] }
      if stopOnError then (st1, true, 1)
      else
        let st2 := if st.batch ≥ commitEvery then commitNow st1 else st1
        let r := replayGo outcome stopOnError commitEvery crashAt rest (idx + 1) st2
        (r.1, r.2.1, r.2.2 + 1)

/-- Observable outcome of one call of `migrate_sql_to_mysql`: the loop
counters plus the resource/cleanup events of the surrounding code
(connection opened at line 156, FK checks disabled at lines 170-171,
stream opened at line 176, and the `finally` block: best-effort FK
re-enable with its commit, `cur.close()`, `conn.close()`,
`stream.close()`).  `durableApplied` is the number of applied statements
that are committed when control returns: the connection runs one open
transaction (`autocommit=False`), every `conn.commit()` commits all work
executed so far, and the last commit to run is either the `finally`
block's commit after `SET FOREIGN_KEY_CHECKS=1` (lines 213-214, when that
best-effort attempt succeeds — then all applied statements are durable)
or, when the cleanup attempt itself fails, the last data commit of the
loop. -/
structure MigrateResult where
  applied : Nat
  failed : Nat
  attempted : Nat
  commitLog : List Nat
  failures : List Nat
  aborted : Bool
  connOpened : Bool
  fkDisabled : Bool
  streamOpened : Bool
  fkReenableAttempted : Bool
  fkReenableSucceeded : Bool
  connClosed : Bool
  streamClosed : Bool
  durableApplied : Nat
deriving DecidableEq

/-- `migrate_sql_to_mysql`, given the already-tokenized statement
sequence.  Control flow of the original: connect; disable FK checks and
commit; open the SQL source (`stream = _open_sql_source(source)`, line
176, *outside* the `try`); run the statement loop inside
`try ... finally`; the `finally` block re-enables FK checks (swallowing
any error of that attempt: `fkReenableFails`) and closes cursor,
connection and stream.  `sourceOpenFails` models a loader error raised by
`_open_sql_source`: it propagates before the `try` is entered, so no
cleanup runs. -/
def migrateSqlToMysql (sourceOpenFails : Bool) (fkReenableFails : Bool)
    (outcome : Nat → Bool) (stopOnError : Bool) (commitEvery : Nat)
    (crashAt : Option Nat) (stmts : List (List Char)) : MigrateResult :=
  if sourceOpenFails then
    { applied := 0, failed := 0, attempted := 0, commitLog := [], failures := [],
      aborted := true, connOpened := true, fkDisabled := true, streamOpened := false,
      fkReenableAttempted := false, fkReenableSucceeded := false,
      connClosed := false, streamClosed := false, durableApplied := 0 }
  else
    let r := replayGo outcome stopOnError commitEvery crashAt stmts 0 initReplayState
    { applied := r.1.applied, failed := r.1.failed, attempted := r.2.2,
      commitLog := r.1.commitLog, failures := r.1.failures, aborted := r.2.1,
      connOpened := true, fkDisabled := true, streamOpened := true,
      fkReenableAttempted := true, fkReenableSucceeded := !fkReenableFails,
      connClosed := true, streamClosed := true,
      durableApplied :=
        if fkReenableFails then (r.1.commitLog.getLast?).getD 0 else r.1.applied }

/-- The number of failures among the first `n` execute outcomes starting
at attempt index `idx`. -/
def failCountFrom (outcome : Nat → Bool) (idx : Nat) : Nat → Nat
  | 0 => 0
  | n + 1 => (if outcome idx then 0 else 1) + failCountFrom outcome (idx + 1) n

/-- The number of statements (among `n`) that fail against the
destination: `K` in the spec's P6. -/
def countFailures (outcome : Nat → Bool) (n : Nat) : Nat := failCountFrom outcome 0 n

/-- The commit points of a completed or aborted run in terms of the final
`applied` count: one periodic commit after every `M` successes. -/
def commitSpec (a M : Nat) : List Nat := (List.range (a / M)).map (fun i => (i + 1) * M)

/-! ## Well-formed dumps for the statement-count property -/

/-- A usable statement delimiter: non-empty and already trimmed (the
tokenizer always stores `check[len("DELIMITER "):].strip()`, and the
default `;` is of this shape). -/
def goodDelim (d : List Char) : Bool := !d.isEmpty && (pyStrip d == d)

/-- A syntactically well-formed simple statement relative to delimiter
`d`: non-empty, trimmed, free of block-comment openers on its rendered
line, and not itself looking like a `DELIMITER` directive or a line
comment. -/
def simpleStmtFor (d s : List Char) : Bool :=
  !s.isEmpty && (pyStrip s == s)
    && (splitFirst ['/', '*'] (s ++ d ++ ['\n']) == none)
    && !(delimToken.isPrefixOf ((s ++ d).map Char.toUpper))
    && !(['-', '-'].isPrefixOf (s ++ d)) && !(['#'].isPrefixOf (s ++ d))

/-- One input line carrying the given statements in order, each
immediately followed by the delimiter (several properly terminated
statements may share the line). -/
def renderLine (d : List Char) (stmts : List (List Char)) : List Char :=
  (stmts.map (fun s => s ++ d)).flatten ++ ['\n']

/-- A `DELIMITER` directive line declaring the new delimiter `d`. -/
def delimLine (d : List Char) : List Char := delimToken ++ d ++ ['\n']

/-- The number of successes among the first `n` execute outcomes starting
at attempt index `idx`. -/
def succCountFrom (outcome : Nat → Bool) (idx : Nat) : Nat → Nat
  | 0 => 0
  | n + 1 => (if outcome idx then 1 else 0) + succCountFrom outcome (idx + 1) n

/-- Several consecutive lines processed in order, accumulating the
statements they emit. -/
def processLines (st : TokState) (ls : List (List Char)) : TokState × List (List Char) :=
  ls.foldl (fun p l => ((processLine p.1 l).1, p.2 ++ (processLine p.1 l).2)) (st, [])

/-- The scanner state after processing the given lines from a start
state. -/
def runTokState (st : TokState) (lines : List (List Char)) : TokState :=
  lines.foldl (fun s l => (processLine s l).1) st

/-- A raw line as produced by iterating a text file: terminated by a
single newline, with no interior newline. -/
def wfLine (l : List Char) : Prop := ∃ b, l = b ++ ['\n'] ∧ '\n' ∉ b

/-- The scanner-state invariant maintained while tokenizing a stream of
well-formed lines: the active delimiter never contains a newline, and a
non-empty pending buffer always holds some non-whitespace text and ends
with the newline of the last line appended to it. -/
def TokInv (st : TokState) : Prop :=
  '\n' ∉ st.currentDelim ∧
    (st.buf = [] ∨ (pyStrip st.buf ≠ [] ∧ ∃ u, st.buf = u ++ ['\n']))

/-! ## Claim theorems: concrete evaluations -/

/-- C2: on the five-line input `A;\nDELIMITER $$\nB$$\nDELIMITER ;\nC;`,
the tokenizer yields exactly the sequence `["A", "B", "C"]`; in
particular the delimiter directive lines contribute no output. -/
theorem C2_delimiter_switch :
    sqlStatementStream ["A;\n".data, "DELIMITER $$\n".data, "B$$\n".data,
      "DELIMITER ;\n".data, "C;\n".data] = ["A".data, "B".data, "C".data] := by decide

/-- C1 is false as stated: `A;B;` is a single input line consisting of
two syntactically well-formed statements (`A` and `B`), each properly
terminated by the active delimiter `;`, yet the tokenizer yields one
merged Statement `"A;B"` instead of the two Statements — the
trailing-delimiter check runs once per appended line, not per delimiter
occurrence. -/
theorem C1_counterexample :
    simpleStmtFor [';'] "A".data = true ∧ simpleStmtFor [';'] "B".data = true ∧
    renderLine [';'] ["A".data, "B".data] = "A;B;\n".data ∧
    sqlStatementStream [renderLine [';'] ["A".data, "B".data]] = ["A;B".data] ∧
    sqlStatementStream [renderLine [';'] ["A".data, "B".data]] ≠ ["A".data, "B".data] ∧
    (sqlStatementStream [renderLine [';'] ["A".data, "B".data]]).length ≠ 2 := by decide

/-- C6 is false as stated: the second line of the input
`/*\n--x*/SELECT 1;` has trimmed content beginning with `--`, yet the
text `SELECT 1` from that line appears as an emitted Statement — the
line-comment check is applied only after block-comment stripping, so a
`--` opening a line inside an open block comment does not suppress the
text after the comment close. -/
theorem C6_counterexample :
    ['-', '-'].isPrefixOf (pyStrip "--x*/SELECT 1;\n".data) = true ∧
    sqlStatementStream ["/*\n".data, "--x*/SELECT 1;\n".data] = ["SELECT 1".data] ∧
    splitFirst "SELECT 1".data "--x*/SELECT 1;\n".data ≠ none := by decide

/-- C4 is false as stated: a fatal loader error raised by
`_open_sql_source` (line 176) occurs after the connection is opened and
foreign-key checks are disabled, but before the `try`/`finally` block is
entered — so the driver neither attempts to re-enable foreign-key checks
nor closes the connection on that exit path. -/
theorem C4_counterexample :
    (migrateSqlToMysql true false (fun _ => true) false 200 none []).connOpened = true ∧
    (migrateSqlToMysql true false (fun _ => true) false 200 none []).fkDisabled = true ∧
    (migrateSqlToMysql true false (fun _ => true) false 200 none []).fkReenableAttempted = false ∧
    (migrateSqlToMysql true false (fun _ => true) false 200 none []).connClosed = false ∧
    (migrateSqlToMysql true false (fun _ => true) false 200 none []).streamClosed = false := by
  decide

/-- C4 (amended): once the source stream has been opened and the
statement loop entered, every exit path — success, early abort via
`stop_on_error`, or any uncaught error raised while iterating or
executing statements — attempts to re-enable foreign-key checks
(swallowing any failure of that attempt) and releases the destination
connection and the decoded stream; only a loader error raised while
opening the source (which happens after the connection is opened) escapes
this cleanup. -/
theorem C4_cleanup_after_open (fkFail : Bool) (outcome : Nat → Bool) (stop : Bool)
    (M : Nat) (crash : Option Nat) (stmts : List (List Char)) :
    (migrateSqlToMysql false fkFail outcome stop M crash stmts).fkReenableAttempted = true ∧
    (migrateSqlToMysql false fkFail outcome stop M crash stmts).connClosed = true ∧
    (migrateSqlToMysql false fkFail outcome stop M crash stmts).streamClosed = true := by
  simp [migrateSqlToMysql]

/-! ## Replay driver lemmas -/

lemma succ_add_fail (outcome : Nat → Bool) :
    ∀ (n idx : Nat), succCountFrom outcome idx n + failCountFrom outcome idx n = n := by
  intro n
  induction n with
  | zero => intro idx; simp [succCountFrom, failCountFrom]
  | succ m ih =>
    intro idx
    simp only [succCountFrom, failCountFrom]
    have := ih (idx + 1)
    by_cases h : outcome idx <;> simp [h] <;> omega

lemma ite_commitNow_applied (c : Prop) [Decidable c] (s : ReplayState) :
    (if c then commitNow s else s).applied = s.applied := by
  split <;> rfl

lemma ite_commitNow_failed (c : Prop) [Decidable c] (s : ReplayState) :
    (if c then commitNow s else s).failed = s.failed := by
  split <;> rfl

lemma ite_commitNow_failures (c : Prop) [Decidable c] (s : ReplayState) :
    (if c then commitNow s else s).failures = s.failures := by
  split <;> rfl

/-- With `stop_on_error = false` and no mid-iteration crash, the replay
loop never aborts, attempts every statement, and accumulates failure and
success counts. -/
lemma replayGo_no_abort (outcome : Nat → Bool) (M : Nat) :
    ∀ (stmts : List (List Char)) (idx : Nat) (st : ReplayState),
    (replayGo outcome false M none stmts idx st).2.1 = false ∧
    (replayGo outcome false M none stmts idx st).2.2 = stmts.length ∧
    (replayGo outcome false M none stmts idx st).1.failed
      = st.failed + failCountFrom outcome idx stmts.length ∧
    (replayGo outcome false M none stmts idx st).1.applied
      = st.applied + succCountFrom outcome idx stmts.length := by
  intro stmts
  induction stmts with
  | nil =>
    intro idx st
    simp only [replayGo, failCountFrom, succCountFrom]
    split <;> simp
  | cons h rest ih =>
    intro idx st
    simp only [replayGo, List.length_cons, failCountFrom, succCountFrom,
      reduceCtorEq, if_false]
    by_cases ho : outcome idx
    · simp only [ho, if_true]
      refine ⟨(ih _ _).1, ?_, ?_, ?_⟩
      · rw [(ih _ _).2.1]
      · rw [(ih _ _).2.2.1, ite_commitNow_failed]
        simp
      · rw [(ih _ _).2.2.2, ite_commitNow_applied]
        simp
        omega
    · simp only [ho, if_false, Bool.false_eq_true]
      refine ⟨(ih _ _).1, ?_, ?_, ?_⟩
      · rw [(ih _ _).2.1]
      · rw [(ih _ _).2.2.1, ite_commitNow_failed]
        simp
        omega
      · rw [(ih _ _).2.2.2, ite_commitNow_applied]
        simp

/-- C3: with `stop_on_error = false`, all `S` statements are attempted
and the driver reports `applied_count = S - K` and `failed_count = K`,
where `K` is the number of statements that fail against the
destination. -/
theorem C3_counts_all_attempted (outcome : Nat → Bool) (M : Nat)
    (stmts : List (List Char)) :
    (migrateSqlToMysql false false outcome false M none stmts).attempted = stmts.length ∧
    (migrateSqlToMysql false false outcome false M none stmts).failed
      = countFailures outcome stmts.length ∧
    (migrateSqlToMysql false false outcome false M none stmts).applied
      = stmts.length - countFailures outcome stmts.length := by
  have h := replayGo_no_abort outcome M stmts 0 initReplayState
  have hsf := succ_add_fail outcome stmts.length 0
  simp only [migrateSqlToMysql, Bool.false_eq_true, if_false, countFailures]
  refine ⟨h.2.1, ?_, ?_⟩
  · rw [h.2.2.1]
    simp [initReplayState]
  · rw [h.2.2.2]
    simp only [initReplayState]
    omega

/-- With `stop_on_error = true`, if the first `i - 1` outcomes succeed
and the `i`-th fails, the loop aborts after exactly `i` attempts,
recording the single failure. -/
lemma replayGo_abort_at (outcome : Nat → Bool) (M : Nat) :
    ∀ (stmts : List (List Char)) (idx i : Nat) (st : ReplayState),
    1 ≤ i → i ≤ stmts.length →
    (∀ j, j < i - 1 → outcome (idx + j) = true) →
    outcome (idx + (i - 1)) = false →
    (replayGo outcome true M none stmts idx st).2.1 = true ∧
    (replayGo outcome true M none stmts idx st).2.2 = i ∧
    (replayGo outcome true M none stmts idx st).1.failed = st.failed + 1 ∧
    (replayGo outcome true M none stmts idx st).1.failures
      = st.failures ++ [idx + (i - 1)] ∧
    (replayGo outcome true M none stmts idx st).1.applied = st.applied + (i - 1) := by
  intro stmts
  induction stmts with
  | nil =>
    intro idx i st h1 h2 _ _
    simp at h2
    omega
  | cons h rest ih =>
    intro idx i st h1 h2 hpre hf
    simp only [replayGo, reduceCtorEq, if_false]
    by_cases hi : i = 1
    · subst hi
      simp only [Nat.sub_self] at hf
      simp only [Nat.add_zero] at hf
      simp only [hf, Bool.false_eq_true, if_false, if_true]
      simp
    · have hi2 : 2 ≤ i := by omega
      have ho : outcome idx = true := by
        have := hpre 0 (by omega)
        simpa using this
      simp only [ho, if_true]
      have hrec := ih (idx + 1) (i - 1)
        (if ({ st with applied := st.applied + 1, batch := st.batch + 1 } :
              ReplayState).batch ≥ M
         then commitNow { st with applied := st.applied + 1, batch := st.batch + 1 }
         else { st with applied := st.applied + 1, batch := st.batch + 1 })
        (by omega) (by simp at h2; omega)
        (by
          intro j hj
          have := hpre (j + 1) (by omega)
          have heq : idx + (j + 1) = idx + 1 + j := by omega
          rwa [heq] at this)
        (by
          have heq : idx + 1 + (i - 1 - 1) = idx + (i - 1) := by omega
          rwa [heq])
      refine ⟨hrec.1, ?_, ?_, ?_, ?_⟩
      · rw [hrec.2.1]; omega
      · rw [hrec.2.2.1, ite_commitNow_failed]
      · rw [hrec.2.2.2.1, ite_commitNow_failures]
        have heq : idx + 1 + (i - 1 - 1) = idx + (i - 1) := by omega
        rw [heq]
      · rw [hrec.2.2.2.2, ite_commitNow_applied]
        simp
        omega

/-- C8: with `stop_on_error = true`, if the `i`-th statement of the
sequence is the first to fail, then exactly `i` statements are attempted,
the failure is recorded in `failed_count` and in the failure report list,
and the run aborts without processing statement `i + 1`. -/
theorem C8_abort_on_error (outcome : Nat → Bool) (M : Nat)
    (stmts : List (List Char)) (i : Nat)
    (h1 : 1 ≤ i) (h2 : i ≤ stmts.length)
    (hpre : ∀ j, j < i - 1 → outcome j = true)
    (hf : outcome (i - 1) = false) :
    (migrateSqlToMysql false false outcome true M none stmts).attempted = i ∧
    (migrateSqlToMysql false false outcome true M none stmts).aborted = true ∧
    (migrateSqlToMysql false false outcome true M none stmts).failed = 1 ∧
    (migrateSqlToMysql false false outcome true M none stmts).failures = [i - 1] ∧
    (migrateSqlToMysql false false outcome true M none stmts).applied = i - 1 := by
  have h := replayGo_abort_at outcome M stmts 0 i initReplayState h1 h2
    (by intro j hj; simpa using hpre j hj) (by simpa using hf)
  simp only [migrateSqlToMysql, Bool.false_eq_true, if_false]
  refine ⟨h.2.1, h.1, ?_, ?_, ?_⟩
  · rw [h.2.2.1]; simp [initReplayState]
  · rw [h.2.2.2.1]; simp [initReplayState]
  · rw [h.2.2.2.2]; simp [initReplayState]

/-- Witness for C8: three statements, the second fails,
`stop_on_error = true` — two attempts, one recorded failure, abort. -/
theorem C8_witness :
    (migrateSqlToMysql false false (fun j => j == 0) true 200 none
        [[], [], []]).attempted = 2 ∧
    (migrateSqlToMysql false false (fun j => j == 0) true 200 none
        [[], [], []]).aborted = true ∧
    (migrateSqlToMysql false false (fun j => j == 0) true 200 none
        [[], [], []]).failed = 1 ∧
    (migrateSqlToMysql false false (fun j => j == 0) true 200 none
        [[], [], []]).failures = [1] ∧
    (migrateSqlToMysql false false (fun j => j == 0) true 200 none
        [[], [], []]).applied = 1 :=
  C8_abort_on_error (fun j => j == 0) 200 [[], [], []] 2 (by decide) (by decide)
    (by
      intro j hj
      have h0 : j = 0 := by omega
      subst h0
      decide)
    (by decide)

lemma mod_succ_full (a M : Nat) (hM : 1 ≤ M) (h : a % M = M - 1) : (a + 1) % M = 0 := by
  have h0 := Nat.div_add_mod a M
  have h1 : a + 1 = M * (a / M + 1) := by
    have h2 : M * (a / M + 1) = M * (a / M) + M := by ring
    omega
  rw [h1, Nat.mul_mod_right]

lemma div_succ_full (a M : Nat) (hM : 1 ≤ M) (h : a % M = M - 1) :
    (a + 1) / M = a / M + 1 := by
  have h0 := Nat.div_add_mod a M
  have h1 : a + 1 = M * (a / M + 1) := by
    have h2 : M * (a / M + 1) = M * (a / M) + M := by ring
    omega
  rw [h1, Nat.mul_div_cancel_left _ (by omega : 0 < M)]

lemma mod_succ_small (a M : Nat) (h : a % M + 1 < M) : (a + 1) % M = a % M + 1 := by
  have h0 := Nat.div_add_mod a M
  have h1 : a + 1 = M * (a / M) + (a % M + 1) := by omega
  rw [h1, Nat.mul_add_mod, Nat.mod_eq_of_lt h]

lemma div_succ_small (a M : Nat) (h : a % M + 1 < M) : (a + 1) / M = a / M := by
  have h0 := Nat.div_add_mod a M
  have h1 : a + 1 = M * (a / M) + (a % M + 1) := by omega
  rw [h1, Nat.mul_add_div (by omega : 0 < M), Nat.div_eq_of_lt h, Nat.add_zero]

lemma commitSpec_succ_full (a M : Nat) (hM : 1 ≤ M) (h : a % M = M - 1) :
    commitSpec (a + 1) M = commitSpec a M ++ [a + 1] := by
  unfold commitSpec
  rw [div_succ_full a M hM h, List.range_succ, List.map_append, List.map_singleton]
  have h0 := Nat.div_add_mod a M
  have h1 : (a / M + 1) * M = a / M * M + M := by ring
  have h2 : a / M * M = M * (a / M) := by ring
  have : (a / M + 1) * M = a + 1 := by omega
  rw [this]

lemma commitSpec_succ_small (a M : Nat) (h : a % M + 1 < M) :
    commitSpec (a + 1) M = commitSpec a M := by
  unfold commitSpec
  rw [div_succ_small a M h]

/-- Invariant of the replay loop for commit accounting: the running
`batch` counter always equals `applied % M`, and the data-commit log
always holds exactly the commit points after every `M`-th success — plus,
on a non-aborted exit with a non-zero remainder of successes, the one
final commit. -/
lemma replayGo_commit_inv (outcome : Nat → Bool) (stop : Bool) (crash : Option Nat)
    (M : Nat) (hM : 1 ≤ M) :
    ∀ (stmts : List (List Char)) (idx : Nat) (st : ReplayState),
    st.batch = st.applied % M →
    st.commitLog = commitSpec st.applied M →
    (replayGo outcome stop M crash stmts idx st).1.batch
      = (replayGo outcome stop M crash stmts idx st).1.applied % M ∧
    (replayGo outcome stop M crash stmts idx st).1.commitLog
      = commitSpec (replayGo outcome stop M crash stmts idx st).1.applied M ++
        (if (replayGo outcome stop M crash stmts idx st).2.1 = true
            ∨ (replayGo outcome stop M crash stmts idx st).1.applied % M = 0
         then ([] : List Nat)
         else [(replayGo outcome stop M crash stmts idx st).1.applied]) := by
  intro stmts
  induction stmts with
  | nil =>
    intro idx st hbatch hlog
    simp only [replayGo]
    by_cases hb : st.batch > 0
    · rw [if_pos hb]
      refine ⟨hbatch, ?_⟩
      rw [hlog]
      have : ¬(false = true ∨ st.applied % M = 0) := by
        simp
        omega
      rw [if_neg this]
    · rw [if_neg hb]
      refine ⟨hbatch, ?_⟩
      rw [hlog]
      have : (false = true ∨ st.applied % M = 0) := by
        right
        omega
      rw [if_pos this, List.append_nil]
  | cons h rest ih =>
    intro idx st hbatch hlog
    have hmodlt : st.applied % M < M := Nat.mod_lt _ (by omega)
    by_cases hc : crash = some idx
    · simp only [replayGo, hc, if_true]
      refine ⟨hbatch, ?_⟩
      rw [hlog]
      simp
    · by_cases ho : outcome idx
      · simp only [replayGo, if_neg hc, ho, if_true]
        by_cases hcm : st.batch + 1 ≥ M
        · rw [if_pos hcm]
          have hfull : st.applied % M = M - 1 := by omega
          exact ih (idx + 1) _
            (by
              simp only [commitNow]
              exact (mod_succ_full st.applied M hM hfull).symm)
            (by
              simp only [commitNow]
              rw [hlog, commitSpec_succ_full st.applied M hM hfull])
        · rw [if_neg hcm]
          have hpart : st.applied % M + 1 < M := by omega
          exact ih (idx + 1) _
            (by
              show st.batch + 1 = (st.applied + 1) % M
              rw [mod_succ_small st.applied M hpart]
              omega)
            (by
              show st.commitLog = commitSpec (st.applied + 1) M
              rw [hlog, commitSpec_succ_small st.applied M hpart])
      · simp only [replayGo, if_neg hc, ho, Bool.false_eq_true, if_false]
        by_cases hs : stop
        · simp only [hs, if_true]
          refine ⟨hbatch, ?_⟩
          rw [hlog]
          simp
        · have hs0 : stop = false := by simpa using hs
          subst hs0
          simp only [Bool.false_eq_true, if_false]
          have hnc : ¬(st.batch ≥ M) := by omega
          rw [if_neg hnc]
          exact ih (idx + 1)
            { st with failed := st.failed + 1, failures := st.failures ++ [idx] }
            hbatch hlog

/-- C5: with `commit_every = M`, a completed run (`stop_on_error =
false`, no crash) commits exactly after every `M`-th successfully
executed statement — the data-commit log is `[M, 2M, ...]` in terms of
the `applied` counter — plus exactly one final commit if and only if a
non-zero remainder of successes is uncommitted at exhaustion.  Failed
statements never advance the batch counter: the log depends only on the
count of successes. -/
theorem C5_commit_batching (outcome : Nat → Bool) (M : Nat) (hM : 1 ≤ M)
    (stmts : List (List Char)) :
    (migrateSqlToMysql false false outcome false M none stmts).commitLog
      = commitSpec (migrateSqlToMysql false false outcome false M none stmts).applied M ++
        (if (migrateSqlToMysql false false outcome false M none stmts).applied % M = 0
         then ([] : List Nat)
         else [(migrateSqlToMysql false false outcome false M none stmts).applied]) := by
  have hinv := replayGo_commit_inv outcome false none M hM stmts 0 initReplayState
    (by simp [initReplayState]) (by simp [initReplayState, commitSpec])
  have hna := replayGo_no_abort outcome M stmts 0 initReplayState
  simp only [migrateSqlToMysql, Bool.false_eq_true, if_false]
  rw [hinv.2, hna.1]
  simp

/-- Witness for C5: five statements with one failure, `commit_every = 2`:
four successes, data commits at success counts 2 and 4, no extra final
commit. -/
theorem C5_witness :
    1 ≤ 2 ∧
    (migrateSqlToMysql false false (fun i => i != 1) false 2 none
        [[], [], [], [], []]).commitLog
      = commitSpec
          (migrateSqlToMysql false false (fun i => i != 1) false 2 none
            [[], [], [], [], []]).applied 2 ++
        (if (migrateSqlToMysql false false (fun i => i != 1) false 2 none
              [[], [], [], [], []]).applied % 2 = 0
         then ([] : List Nat)
         else [(migrateSqlToMysql false false (fun i => i != 1) false 2 none
              [[], [], [], [], []]).applied]) :=
  ⟨by decide, C5_commit_batching (fun i => i != 1) 2 (by decide) [[], [], [], [], []]⟩

/-- C10 is false as stated: on an abort the loop itself issues no final
commit (the data-commit log is only the full batches), but the `finally`
block then runs `SET FOREIGN_KEY_CHECKS=1; conn.commit()` (lines
213-214), and since the connection runs one open transaction that commit
makes *all* applied statements durable whenever the best-effort cleanup
succeeds — the usual abort case.  Concretely: five statements,
`stop_on_error = true`, failure at the fourth, `commit_every = 2`:
three statements are applied, the only batch commit is at 2, yet all
three applied statements are durable on return, not the two the claim
allows. -/
theorem C10_counterexample :
    (migrateSqlToMysql false false (fun i => i != 3) true 2 none
        [[], [], [], [], []]).aborted = true ∧
    (migrateSqlToMysql false false (fun i => i != 3) true 2 none
        [[], [], [], [], []]).applied = 3 ∧
    (migrateSqlToMysql false false (fun i => i != 3) true 2 none
        [[], [], [], [], []]).commitLog = [2] ∧
    (migrateSqlToMysql false false (fun i => i != 3) true 2 none
        [[], [], [], [], []]).durableApplied = 3 ∧
    (migrateSqlToMysql false false (fun i => i != 3) true 2 none
        [[], [], [], [], []]).durableApplied ≠ 2 := by
  decide

lemma commitSpec_getLast (a M : Nat) :
    ((commitSpec a M).getLast?).getD 0 = M * (a / M) := by
  unfold commitSpec
  cases hq : a / M with
  | zero => simp
  | succ q =>
    rw [List.range_succ, List.map_append, List.map_singleton,
      List.getLast?_concat]
    simp [Nat.mul_comm]

/-- C10 (amended): when the replay run aborts (`stop_on_error` abort
after a statement failure, or any other uncaught error during
execution), the statement loop issues no final commit: the data-commit
log holds exactly the full-batch commits `[M, 2M, ...]`.  The `finally`
block always attempts `SET FOREIGN_KEY_CHECKS=1; conn.commit()`; when
that best-effort attempt succeeds, its commit makes every applied
statement durable — including the remainder since the last batch commit
— and only when the cleanup attempt itself fails does durability stop at
the last full batch `M * (applied / M)`. -/
theorem C10_abort_durability (outcome : Nat → Bool) (stop : Bool) (M : Nat)
    (crash : Option Nat) (fkFail : Bool) (stmts : List (List Char)) (hM : 1 ≤ M)
    (hab : (migrateSqlToMysql false fkFail outcome stop M crash stmts).aborted
      = true) :
    (migrateSqlToMysql false fkFail outcome stop M crash stmts).commitLog
      = commitSpec
          (migrateSqlToMysql false fkFail outcome stop M crash stmts).applied M ∧
    (migrateSqlToMysql false fkFail outcome stop M crash stmts).fkReenableAttempted
      = true ∧
    (fkFail = false →
      (migrateSqlToMysql false fkFail outcome stop M crash stmts).durableApplied
        = (migrateSqlToMysql false fkFail outcome stop M crash stmts).applied) ∧
    (fkFail = true →
      (migrateSqlToMysql false fkFail outcome stop M crash stmts).durableApplied
        = M * ((migrateSqlToMysql false fkFail outcome stop M crash
            stmts).applied / M)) := by
  have hinv := replayGo_commit_inv outcome stop crash M hM stmts 0 initReplayState
    (by simp [initReplayState]) (by simp [initReplayState, commitSpec])
  simp only [migrateSqlToMysql, Bool.false_eq_true, if_false] at hab ⊢
  have hlog : (replayGo outcome stop M crash stmts 0 initReplayState).1.commitLog
      = commitSpec (replayGo outcome stop M crash stmts 0 initReplayState).1.applied
          M := by
    rw [hinv.2, hab]
    simp
  refine ⟨hlog, by trivial, ?_, ?_⟩
  · intro hf
    subst hf
    simp
  · intro hf
    subst hf
    simp only [if_true, if_pos rfl]
    rw [hlog, commitSpec_getLast]

/-- Witness for C10: the aborting run of the counterexample but with the
cleanup attempt failing (`fkFail = true`): the batch commit at 2 is then
the durability horizon, `2 * (3 / 2) = 2`. -/
theorem C10_witness :
    1 ≤ 2 ∧
    (migrateSqlToMysql false true (fun i => i != 3) true 2 none
        [[], [], [], [], []]).aborted = true ∧
    ((migrateSqlToMysql false true (fun i => i != 3) true 2 none
        [[], [], [], [], []]).commitLog
      = commitSpec
          (migrateSqlToMysql false true (fun i => i != 3) true 2 none
            [[], [], [], [], []]).applied 2 ∧
    (migrateSqlToMysql false true (fun i => i != 3) true 2 none
        [[], [], [], [], []]).fkReenableAttempted = true ∧
    (true = false →
      (migrateSqlToMysql false true (fun i => i != 3) true 2 none
          [[], [], [], [], []]).durableApplied
        = (migrateSqlToMysql false true (fun i => i != 3) true 2 none
            [[], [], [], [], []]).applied) ∧
    (true = true →
      (migrateSqlToMysql false true (fun i => i != 3) true 2 none
          [[], [], [], [], []]).durableApplied
        = 2 * ((migrateSqlToMysql false true (fun i => i != 3) true 2 none
            [[], [], [], [], []]).applied / 2))) :=
  ⟨by decide, by decide,
    C10_abort_durability (fun i => i != 3) true 2 none true [[], [], [], [], []]
      (by decide) (by decide)⟩

/-! ## Substring-search lemmas -/

lemma splitFirst_nil_of_ne (pat : List Char) (h : pat ≠ []) :
    splitFirst pat [] = none := by
  cases pat with
  | nil => simp at h
  | cons a as => rfl

lemma splitFirst_some_eq (pat : List Char) :
    ∀ (l pre post : List Char), splitFirst pat l = some (pre, post) →
    l = pre ++ pat ++ post := by
  intro l
  induction l with
  | nil =>
    intro pre post h
    by_cases hp : pat.isPrefixOf ([] : List Char)
    · have : pat = [] := by
        have := List.isPrefixOf_iff_prefix.mp hp
        simpa using this
      subst this
      simp [splitFirst] at h
      simp [h.1, h.2]
    · simp [splitFirst, hp] at h
  | cons c cs ih =>
    intro pre post h
    by_cases hp : pat.isPrefixOf (c :: cs)
    · rw [splitFirst, if_pos hp] at h
      obtain ⟨t, ht⟩ := List.isPrefixOf_iff_prefix.mp hp
      injection h with h1
      injection h1 with hpre hpost
      subst hpre
      rw [← ht] at hpost
      rw [List.drop_left] at hpost
      subst hpost
      simp [← ht]
    · rw [splitFirst, if_neg hp] at h
      cases hrec : splitFirst pat cs with
      | none => rw [hrec] at h; exact absurd h (by simp)
      | some pr =>
        obtain ⟨p, q⟩ := pr
        rw [hrec] at h
        injection h with h1
        injection h1 with hpre hpost
        subst hpre
        subst hpost
        have := ih p q hrec
        simp [this]

lemma splitFirst_self_prefix (pat r : List Char) :
    splitFirst pat (pat ++ r) = some ([], r) := by
  cases pat with
  | nil =>
    cases r with
    | nil => rfl
    | cons c cs => rfl
  | cons a as =>
    have hp : (a :: as).isPrefixOf (a :: (as ++ r)) = true := by
      rw [ List.isPrefixOf_iff_prefix]
      exact List.prefix_append (a :: as) r
    show splitFirst (a :: as) (a :: (as ++ r)) = some ([], r)
    rw [splitFirst, if_pos hp]
    have hd : ((a :: as) ++ r).drop (a :: as).length = r := List.drop_left _ _
    simp only [List.cons_append] at hd
    rw [hd]

/-- `isPrefixOf` for a two-character pattern inspects only the first two
characters. -/
lemma isPrefixOf_two (p₀ p₁ c d : Char) (L : List Char) :
    ([p₀, p₁].isPrefixOf (c :: d :: L)) = (p₀ == c && p₁ == d) := by
  simp only [List.isPrefixOf, Bool.and_true]

lemma splitFirst_two_not_prefix (p₀ p₁ c : Char) (cs : List Char)
    (h : splitFirst [p₀, p₁] (c :: cs) = none) :
    ([p₀, p₁].isPrefixOf (c :: cs)) = false := by
  cases hp : [p₀, p₁].isPrefixOf (c :: cs) with
  | false => rfl
  | true => rw [splitFirst, if_pos hp] at h; simp at h

lemma splitFirst_two_tail (p₀ p₁ c : Char) (cs : List Char)
    (h : splitFirst [p₀, p₁] (c :: cs) = none) :
    splitFirst [p₀, p₁] cs = none := by
  have hp := splitFirst_two_not_prefix p₀ p₁ c cs h
  rw [splitFirst, if_neg (by simp [hp])] at h
  cases hrec : splitFirst [p₀, p₁] cs with
  | none => rfl
  | some pr => obtain ⟨p, q⟩ := pr; rw [hrec] at h; simp at h

/-- For a two-character pattern whose characters differ, an occurrence
appended after pattern-free text is the first occurrence: this is
`line.find(pat)` locating the marker we inserted.  (The two characters
differing rules out an occurrence straddling the junction.) -/
lemma splitFirst_pair_append (p₀ p₁ : Char) (hne : p₁ ≠ p₀) :
    ∀ (x r : List Char), splitFirst [p₀, p₁] x = none →
    splitFirst [p₀, p₁] (x ++ ([p₀, p₁] ++ r)) = some (x, r) := by
  intro x
  induction x with
  | nil =>
    intro r _
    simpa using splitFirst_self_prefix [p₀, p₁] r
  | cons c cs ih =>
    intro r hx
    have h1 := splitFirst_two_not_prefix p₀ p₁ c cs hx
    have h2 := splitFirst_two_tail p₀ p₁ c cs hx
    have hne2 : (p₁ == p₀) = false := beq_eq_false_iff_ne.mpr hne
    have hnp : ([p₀, p₁].isPrefixOf (c :: (cs ++ ([p₀, p₁] ++ r)))) = false := by
      cases cs with
      | nil =>
        show ([p₀, p₁].isPrefixOf (c :: p₀ :: p₁ :: r)) = false
        rw [isPrefixOf_two, hne2, Bool.and_false]
      | cons d ds =>
        show ([p₀, p₁].isPrefixOf (c :: d :: (ds ++ ([p₀, p₁] ++ r)))) = false
        rw [isPrefixOf_two]
        rw [isPrefixOf_two] at h1
        exact h1
    show splitFirst [p₀, p₁] (c :: (cs ++ ([p₀, p₁] ++ r))) = some (c :: cs, r)
    rw [splitFirst, if_neg (by rw [hnp]; exact Bool.false_ne_true), ih r h2]

lemma stripInlineGo_nil : ∀ (f : Nat), stripInlineGo f [] = some [] := by
  intro f
  cases f with
  | zero => rfl
  | succ g =>
    rw [stripInlineGo, splitFirst_nil_of_ne ['/', '*'] (by simp)]

lemma stripInlineGo_congr :
    ∀ (f g : Nat) (l : List Char), l.length ≤ f → l.length ≤ g →
    stripInlineGo f l = stripInlineGo g l := by
  intro f
  induction f with
  | zero =>
    intro g l hf _
    have hl : l = [] := by
      cases l with
      | nil => rfl
      | cons c cs => simp at hf
    subst hl
    rw [stripInlineGo_nil, stripInlineGo_nil]
  | succ f ih =>
    intro g l hf hg
    cases g with
    | zero =>
      have hl : l = [] := by
        cases l with
        | nil => rfl
        | cons c cs => simp at hg
      subst hl
      rw [stripInlineGo_nil, stripInlineGo_nil]
    | succ g =>
      rw [stripInlineGo, stripInlineGo]
      cases h1 : splitFirst ['/', '*'] l with
      | none => rfl
      | some pr =>
        obtain ⟨x, rest⟩ := pr
        dsimp only
        cases h2 : splitFirst ['*', '/'] rest with
        | none => rfl
        | some pr2 =>
          obtain ⟨y, z⟩ := pr2
          dsimp only
          have e1 := splitFirst_some_eq ['/', '*'] l x rest h1
          have e2 := splitFirst_some_eq ['*', '/'] rest y z h2
          have hlen1 := congrArg List.length e1
          have hlen2 := congrArg List.length e2
          simp [List.length_append] at hlen1 hlen2
          exact ih g (x ++ z) (by simp [List.length_append]; omega)
            (by simp [List.length_append]; omega)

/-- The fuelled inline-comment remover satisfies the defining equations
of the Python `while "/*" in line` loop: no occurrence of `/*` leaves the
line unchanged; an unterminated occurrence discards the line (block
comment entered); a terminated occurrence removes the span and repeats. -/
lemma stripInline_eq (l : List Char) :
    stripInline l =
      match splitFirst ['/', '*'] l with
      | none => some l
      | some (x, rest) =>
        match splitFirst ['*', '/'] rest with
        | none => none
        | some (_, z) => stripInline (x ++ z) := by
  cases l with
  | nil =>
    rw [show stripInline [] = some [] from rfl,
      splitFirst_nil_of_ne ['/', '*'] (by simp)]
  | cons c cs =>
    show stripInlineGo (c :: cs).length (c :: cs) = _
    rw [show (c :: cs).length = cs.length + 1 from rfl, stripInlineGo]
    cases h1 : splitFirst ['/', '*'] (c :: cs) with
    | none => rfl
    | some pr =>
      obtain ⟨x, rest⟩ := pr
      dsimp only
      cases h2 : splitFirst ['*', '/'] rest with
      | none => rfl
      | some pr2 =>
        obtain ⟨y, z⟩ := pr2
        dsimp only
        have e1 := splitFirst_some_eq ['/', '*'] (c :: cs) x rest h1
        have e2 := splitFirst_some_eq ['*', '/'] rest y z h2
        have hlen1 := congrArg List.length e1
        have hlen2 := congrArg List.length e2
        simp [List.length_append] at hlen1 hlen2
        exact stripInlineGo_congr cs.length (x ++ z).length (x ++ z)
          (by simp [List.length_append]; omega) (le_refl _)

/-! ## Trimming lemmas -/

lemma ltrim_eq_nil_iff (l : List Char) :
    ltrim l = [] ↔ ∀ c ∈ l, pySpace c = true := by
  simp [ltrim, List.dropWhile_eq_nil_iff]

lemma rtrim_eq_nil_iff (l : List Char) :
    rtrim l = [] ↔ ∀ c ∈ l, pySpace c = true := by
  rw [rtrim, List.reverse_eq_nil_iff, List.dropWhile_eq_nil_iff]
  constructor
  · intro h c hc
    exact h c (List.mem_reverse.mpr hc)
  · intro h c hc
    exact h c (List.mem_reverse.mp hc)

lemma mem_ltrim (l : List Char) (c : Char) (h : c ∈ ltrim l) : c ∈ l :=
  (List.dropWhile_sublist pySpace).mem h

lemma mem_rtrim (l : List Char) (c : Char) (h : c ∈ rtrim l) : c ∈ l := by
  rw [rtrim, List.mem_reverse] at h
  exact List.mem_reverse.mp ((List.dropWhile_sublist pySpace).mem h)

lemma mem_pyStrip (l : List Char) (c : Char) (h : c ∈ pyStrip l) : c ∈ l :=
  mem_ltrim l c (mem_rtrim (ltrim l) c h)

lemma pyStrip_eq_nil_iff (l : List Char) :
    pyStrip l = [] ↔ ∀ c ∈ l, pySpace c = true := by
  rw [pyStrip, rtrim_eq_nil_iff]
  constructor
  · intro h c hc
    rcases List.mem_append.mp
        (by rw [List.takeWhile_append_dropWhile (p := pySpace) (l := l)]; exact hc) with
      hm | hm
    · exact List.mem_takeWhile_imp hm
    · exact h c hm
  · intro h c hc
    exact h c (mem_ltrim l c hc)

lemma head_not_space (c : Char) (cs : List Char) (h : ltrim (c :: cs) = c :: cs) :
    pySpace c = false := by
  by_cases hc : pySpace c
  · exfalso
    rw [ltrim, List.dropWhile_cons, if_pos hc] at h
    have h1 := (List.dropWhile_sublist (l := cs) pySpace).length_le
    have h2 := congrArg List.length h
    simp at h2
    omega
  · simpa using hc

lemma ltrim_append_keep (s t : List Char) (hs : ltrim s = s) (hne : s ≠ []) :
    ltrim (s ++ t) = s ++ t := by
  cases s with
  | nil => exact absurd rfl hne
  | cons c cs =>
    have hc := head_not_space c cs hs
    show List.dropWhile pySpace (c :: (cs ++ t)) = c :: (cs ++ t)
    rw [List.dropWhile_cons, if_neg (by simp [hc])]

lemma rev_head_not_space (d : List Char) (hd : rtrim d = d) (hne : d ≠ []) :
    ∃ c dr, d.reverse = c :: dr ∧ pySpace c = false := by
  have hrev : List.dropWhile pySpace d.reverse = d.reverse := by
    have h1 := congrArg List.reverse hd
    rw [rtrim, List.reverse_reverse] at h1
    rw [h1]
  cases hr : d.reverse with
  | nil =>
    exfalso
    exact hne (List.reverse_eq_nil_iff.mp hr)
  | cons c dr =>
    refine ⟨c, dr, rfl, ?_⟩
    rw [hr] at hrev
    by_cases hc : pySpace c
    · exfalso
      rw [List.dropWhile_cons, if_pos hc] at hrev
      have h1 := (List.dropWhile_sublist (l := dr) pySpace).length_le
      have h2 := congrArg List.length hrev
      simp at h2
      omega
    · simpa using hc

lemma rtrim_append_keep (x d : List Char) (hd : rtrim d = d) (hne : d ≠ []) :
    rtrim (x ++ d) = x ++ d := by
  obtain ⟨c, dr, hr, hc⟩ := rev_head_not_space d hd hne
  have hrev : (x ++ d).reverse = c :: (dr ++ x.reverse) := by
    rw [List.reverse_append, hr]
    rfl
  rw [rtrim, hrev, List.dropWhile_cons, if_neg (by simp [hc]), ← hrev,
    List.reverse_reverse]

lemma rtrim_append_ws (w : List Char) (c : Char) (h : pySpace c = true) :
    rtrim (w ++ [c]) = rtrim w := by
  rw [rtrim, rtrim, List.reverse_append]
  show ((c :: w.reverse).dropWhile pySpace).reverse = _
  rw [List.dropWhile_cons, if_pos h]

lemma pyStrip_eq_self (s : List Char) (h : pyStrip s = s) :
    ltrim s = s ∧ rtrim s = s := by
  have hsub : (ltrim s) <:+ s := List.dropWhile_suffix pySpace
  obtain ⟨t, ht⟩ := hsub
  have hlen1 : (rtrim (ltrim s)).length ≤ (ltrim s).length := by
    rw [rtrim]
    have := (List.dropWhile_sublist (l := (ltrim s).reverse) pySpace).length_le
    simpa using this
  have hlen2 : (ltrim s).length + t.length = s.length := by
    have := congrArg List.length ht
    simp at this
    omega
  have hlens : (ltrim s).length = s.length := by
    rw [pyStrip] at h
    have := congrArg List.length h
    omega
  have htnil : t = [] := by
    have : t.length = 0 := by omega
    exact List.length_eq_zero.mp this
  have hlt : ltrim s = s := by
    rw [htnil] at ht
    simpa using ht
  refine ⟨hlt, ?_⟩
  rw [pyStrip, hlt] at h
  exact h




lemma goodDelim_spec (d : List Char) (hd : goodDelim d = true) :
    d ≠ [] ∧ pyStrip d = d := by
  simp only [goodDelim, Bool.and_eq_true] at hd
  obtain ⟨h1, h2⟩ := hd
  refine ⟨?_, eq_of_beq h2⟩
  intro h
  subst h
  simp at h1

lemma processLine_simple (d : List Char) (hd : goodDelim d = true) (s : List Char)
    (hs : simpleStmtFor d s = true) :
    processLine ⟨d, [], false⟩ (s ++ d ++ ['\n']) = (⟨d, [], false⟩, [s]) := by
  obtain ⟨hdne, hdstrip⟩ := goodDelim_spec d hd
  simp only [simpleStmtFor, Bool.and_eq_true] at hs
  obtain ⟨⟨⟨⟨⟨hne, hstrip⟩, hnc⟩, hnd⟩, hc1⟩, hc2⟩ := hs
  have hsne : s ≠ [] := by
    intro h
    subst h
    simp at hne
  have hsstrip : pyStrip s = s := eq_of_beq hstrip
  have hncs : splitFirst ['/', '*'] (s ++ d ++ ['\n']) = none := eq_of_beq hnc
  have hndf : delimToken.isPrefixOf (List.map Char.toUpper (s ++ d)) = false := by
    simpa using hnd
  have hc1f : ['-', '-'].isPrefixOf (s ++ d) = false := by simpa using hc1
  have hc2f : ['#'].isPrefixOf (s ++ d) = false := by simpa using hc2
  obtain ⟨hls, hrs⟩ := pyStrip_eq_self s hsstrip
  obtain ⟨hld, hrd⟩ := pyStrip_eq_self d hdstrip
  have hsi : stripInline (s ++ d ++ ['\n']) = some (s ++ d ++ ['\n']) := by
    rw [stripInline_eq, hncs]
  have hrt : rtrim (s ++ d ++ ['\n']) = s ++ d := by
    rw [rtrim_append_ws (s ++ d) '\n' (by decide)]
    exact rtrim_append_keep s d hrd hdne
  have hcheck : pyStrip (s ++ d ++ ['\n']) = s ++ d := by
    rw [pyStrip, List.append_assoc, ltrim_append_keep s _ hls hsne,
      ← List.append_assoc]
    exact hrt
  have hcne : s ++ d ≠ [] := by
    intro h
    exact hsne (List.append_eq_nil.mp h).1
  have hsuf : d.isSuffixOf (s ++ d) = true :=
    List.isSuffixOf_iff_suffix.mpr (List.suffix_append s d)
  have htake : (s ++ d).take ((s ++ d).length - d.length) = s := by
    have hlen : (s ++ d).length - d.length = s.length := by
      simp [List.length_append]
    rw [hlen]
    exact List.take_left s d
  show processLineBody d [] (s ++ d ++ ['\n']) = (⟨d, [], false⟩, [s])
  rw [processLineBody, hsi]
  dsimp only
  rw [hcheck]
  rw [if_neg hcne, if_neg (by rw [hndf]; exact Bool.false_ne_true),
    if_neg (by rw [hc1f, hc2f]; simp)]
  rw [List.nil_append, hrt, if_pos ⟨hdne, hsuf⟩, htake, hsstrip, if_neg hsne]


/-- C1 (amended): for every dump of statements each properly terminated by
the active delimiter at the end of its own input line, the tokenizer
yields exactly the statements, one Statement per input statement, in the
dump's original order.  (With `d = ";"` the start state is the
tokenizer's initial state; the counterexample shows the original claim's
allowance for two terminated statements sharing one line fails.) -/
theorem C1_one_statement_per_line (d : List Char) (stmts : List (List Char))
    (hd : goodDelim d = true) (h : ∀ s ∈ stmts, simpleStmtFor d s = true) :
    streamAux ⟨d, [], false⟩ (stmts.map (fun s => s ++ d ++ ['\n'])) = stmts := by
  induction stmts with
  | nil => rfl
  | cons s rest ih =>
    simp only [List.map_cons, streamAux]
    rw [processLine_simple d hd s (h s (List.mem_cons_self s rest))]
    rw [ih (fun t ht => h t (List.mem_cons_of_mem s ht))]
    rfl

/-- Witness for C1: two single-letter statements, each on its own
`;`-terminated line, tokenize to exactly those two statements. -/
theorem C1_witness :
    streamAux ⟨[';'], [], false⟩
        ([['A'], ['B']].map (fun s => s ++ [';'] ++ ['\n'])) = [['A'], ['B']] :=
  C1_one_statement_per_line [';'] [['A'], ['B']] (by decide) (by decide)



lemma isPrefixOf_append_self (l t : List Char) : l.isPrefixOf (l ++ t) = true :=
  List.isPrefixOf_iff_prefix.mpr (List.prefix_append l t)

/-- C7: (a) a `DELIMITER` directive line read while a non-empty pending
buffer exists flushes the buffer immediately as one Statement, with no
delimiter-match requirement, clears the buffer and installs the new
delimiter; (b) at stream exhaustion a pending buffer that is non-empty
after trimming is emitted as one final Statement; (c) in particular a
dump ending in `D` with no trailing delimiter yields the final Statement
`"D"`. -/
theorem C7_flush_rules :
    (∀ (st : TokState) (d : List Char), st.inBlockComment = false →
      st.buf ≠ [] → pyStrip st.buf ≠ [] →
      splitFirst ['/', '*'] (delimLine d) = none → goodDelim d = true →
      processLine st (delimLine d) = (⟨d, [], false⟩, [pyStrip st.buf])) ∧
    (∀ st : TokState,
      streamAux st [] =
        if pyStrip st.buf = [] then [] else [pyStrip st.buf]) ∧
    sqlStatementStream [['D', '\n']] = [['D']] := by
  refine ⟨?_, fun st => rfl, by decide⟩
  intro st d hib hbuf hps hnc hd
  obtain ⟨hdne, hdstrip⟩ := goodDelim_spec d hd
  obtain ⟨hld, hrd⟩ := pyStrip_eq_self d hdstrip
  have hsi : stripInline (delimLine d) = some (delimLine d) := by
    rw [stripInline_eq, hnc]
  have hcheck : pyStrip (delimLine d) = delimToken ++ d := by
    rw [delimLine, pyStrip, List.append_assoc,
      ltrim_append_keep delimToken _ (by decide) (by decide),
      ← List.append_assoc, rtrim_append_ws (delimToken ++ d) '\n' (by decide)]
    exact rtrim_append_keep delimToken d hrd hdne
  have hpre : delimToken.isPrefixOf (List.map Char.toUpper (delimToken ++ d)) = true := by
    rw [List.map_append]
    rw [show List.map Char.toUpper delimToken = delimToken from by decide]
    exact isPrefixOf_append_self delimToken (List.map Char.toUpper d)
  have hcne : delimToken ++ d ≠ [] := by
    intro h
    have := (List.append_eq_nil.mp h).1
    simp [delimToken] at this
  have hdrop : (delimToken ++ d).drop delimToken.length = d := List.drop_left _ _
  rw [processLine, hib]
  simp only [Bool.false_eq_true, if_false]
  rw [processLineBody, hsi]
  dsimp only
  rw [hcheck, if_neg hcne, if_pos hpre, hdrop, hdstrip,
    if_neg hbuf, if_neg hps]

/-- Witness for C7: flushing a pending buffer `X` on a `DELIMITER $$`
line, the tail-flush shape for a concrete state, and the concrete
unterminated-tail dump. -/
theorem C7_witness :
    processLine ⟨[';'], ['X', '\n'], false⟩ (delimLine ['$', '$'])
      = (⟨['$', '$'], [], false⟩, [['X']]) ∧
    streamAux ⟨[';'], ['X', '\n'], false⟩ []
      = if pyStrip ['X', '\n'] = [] then [] else [pyStrip ['X', '\n']] :=
  ⟨by
    have h := C7_flush_rules.1 ⟨[';'], ['X', '\n'], false⟩ ['$', '$'] rfl
      (by decide) (by decide) (by decide) (by decide)
    rw [h]
    decide,
   C7_flush_rules.2.1 ⟨[';'], ['X', '\n'], false⟩⟩



lemma tokState_eta (st : TokState) (h : st.inBlockComment = false) :
    (⟨st.currentDelim, st.buf, false⟩ : TokState) = st := by
  cases st
  simp_all

/-- A line whose trimmed content (as seen by the scanner, i.e. containing
no block-comment markers) begins with `--` or `#` is skipped entirely:
state unchanged, nothing emitted. -/
lemma line_comment_skip (st : TokState) (c : List Char)
    (hlc : ['-', '-'].isPrefixOf (pyStrip c) = true ∨
      ['#'].isPrefixOf (pyStrip c) = true)
    (h1 : splitFirst ['/', '*'] c = none)
    (h2 : splitFirst ['*', '/'] c = none) :
    processLine st c = (st, []) := by
  by_cases hib : st.inBlockComment
  · rw [processLine, if_pos hib, h2]
  · rw [processLine, if_neg hib]
    have hsi : stripInline c = some c := by rw [stripInline_eq, h1]
    rw [processLineBody, hsi]
    dsimp only
    rcases hlc with h | h
    · obtain ⟨t, ht⟩ := List.isPrefixOf_iff_prefix.mp h
      rw [if_neg (by rw [← ht]; simp),
        if_neg (by
          rw [← ht]
          show ¬delimToken.isPrefixOf
            (List.map Char.toUpper ('-' :: '-' :: t)) = true
          rw [List.map_cons, delimToken, List.isPrefixOf]
          rw [show ('D' == Char.toUpper '-') = false from by decide]
          simp),
        if_pos (by rw [h]; simp)]
      rw [tokState_eta st (by simpa using hib)]
    · obtain ⟨t, ht⟩ := List.isPrefixOf_iff_prefix.mp h
      rw [if_neg (by rw [← ht]; simp),
        if_neg (by
          rw [← ht]
          show ¬delimToken.isPrefixOf
            (List.map Char.toUpper ('#' :: t)) = true
          rw [List.map_cons, delimToken, List.isPrefixOf]
          rw [show ('D' == Char.toUpper '#') = false from by decide]
          simp),
        if_pos (by rw [h]; simp)]
      rw [tokState_eta st (by simpa using hib)]


/-- An inline `/* ... */` span contributes nothing: a line containing the
span is processed exactly like the line with the span removed. -/
lemma inline_span_skip (st : TokState) (x y z : List Char)
    (hib : st.inBlockComment = false)
    (hx : splitFirst ['/', '*'] x = none)
    (hy : splitFirst ['*', '/'] y = none) :
    processLine st (x ++ (['/', '*'] ++ (y ++ (['*', '/'] ++ z)))) =
      processLine st (x ++ z) := by
  have key : stripInline (x ++ (['/', '*'] ++ (y ++ (['*', '/'] ++ z)))) =
      stripInline (x ++ z) := by
    rw [stripInline_eq,
      splitFirst_pair_append '/' '*' (by decide) x (y ++ (['*', '/'] ++ z)) hx]
    dsimp only
    rw [splitFirst_pair_append '*' '/' (by decide) y z hy]
  rw [processLine, if_neg (by rw [hib]; exact Bool.false_ne_true),
    processLine, if_neg (by rw [hib]; exact Bool.false_ne_true),
    processLineBody, processLineBody, key]

lemma processLines_acc (F : TokState × List (List Char) → List Char →
      TokState × List (List Char))
    (hF : F = fun p l => ((processLine p.1 l).1, p.2 ++ (processLine p.1 l).2)) :
    ∀ (ls : List (List Char)) (st : TokState) (acc : List (List Char)),
    ls.foldl F (st, acc) = ((processLines st ls).1, acc ++ (processLines st ls).2) := by
  intro ls
  induction ls with
  | nil => intro st acc; simp [processLines]
  | cons l ls ih =>
    intro st acc
    rw [List.foldl_cons]
    rw [show F (st, acc) l = ((processLine st l).1, acc ++ (processLine st l).2)
      from by rw [hF]]
    rw [ih]
    rw [show processLines st (l :: ls) =
      (l :: ls).foldl F (st, []) from by rw [processLines, hF]]
    rw [List.foldl_cons]
    rw [show F (st, []) l = ((processLine st l).1, [] ++ (processLine st l).2)
      from by rw [hF]]
    rw [List.nil_append, ih]
    simp

lemma processLines_cons (st : TokState) (l : List Char) (ls : List (List Char)) :
    processLines st (l :: ls) =
      ((processLines (processLine st l).1 ls).1,
        (processLine st l).2 ++ (processLines (processLine st l).1 ls).2) := by
  rw [processLines, List.foldl_cons]
  exact processLines_acc _ rfl ls (processLine st l).1 (processLine st l).2

lemma processLines_nil (st : TokState) : processLines st [] = (st, []) := rfl


lemma blockComment_line_skip (dl bf : List Char) (m : List Char)
    (hm : splitFirst ['*', '/'] m = none) :
    processLine ⟨dl, bf, true⟩ m = (⟨dl, bf, true⟩, []) := by
  rw [processLine, if_pos rfl, hm]

lemma blockComment_mids_skip (dl bf : List Char) :
    ∀ (ms : List (List Char)), (∀ m ∈ ms, splitFirst ['*', '/'] m = none) →
    ∀ (L : List (List Char)),
    processLines ⟨dl, bf, true⟩ (ms ++ L) = processLines ⟨dl, bf, true⟩ L := by
  intro ms
  induction ms with
  | nil => intro _ L; rfl
  | cons m ms ih =>
    intro h L
    rw [List.cons_append, processLines_cons,
      blockComment_line_skip dl bf m (h m (List.mem_cons_self m ms))]
    dsimp only
    rw [ih (fun t ht => h t (List.mem_cons_of_mem m ht)) L]
    simp

/-- A whole-line `/* ... */` block spanning several lines contributes
nothing: the opening line (everything after `/*` free of a close marker),
any number of interior lines, and a closing line ending in `*/` followed
only by the newline, leave the scanner state unchanged and emit no
Statement text. -/
lemma block_lines_skip (st : TokState) (a b : List Char) (mids : List (List Char))
    (hib : st.inBlockComment = false)
    (ha : splitFirst ['*', '/'] a = none)
    (hmids : ∀ m ∈ mids, splitFirst ['*', '/'] m = none)
    (hb : splitFirst ['*', '/'] b = none) :
    processLines st ((['/', '*'] ++ a) :: (mids ++ [b ++ ['*', '/', '\n']]))
      = (st, []) := by
  have hopen : processLine st (['/', '*'] ++ a)
      = (⟨st.currentDelim, st.buf, true⟩, []) := by
    rw [processLine, if_neg (by rw [hib]; exact Bool.false_ne_true),
      processLineBody, stripInline_eq, splitFirst_self_prefix ['/', '*'] a]
    dsimp only
    rw [ha]
  have hb2 : splitFirst ['*', '/'] (b ++ ['*', '/', '\n']) = some (b, ['\n']) := by
    have := splitFirst_pair_append '*' '/' (by decide) b ['\n'] hb
    simpa using this
  have hclose : processLine ⟨st.currentDelim, st.buf, true⟩ (b ++ ['*', '/', '\n'])
      = (⟨st.currentDelim, st.buf, false⟩, []) := by
    rw [processLine, if_pos rfl, hb2]
    dsimp only
    rw [processLineBody, stripInline_eq,
      show splitFirst ['/', '*'] ['\n'] = none from by decide]
    dsimp only
    rw [if_pos (by decide)]
  rw [processLines_cons, hopen]
  dsimp only
  rw [blockComment_mids_skip st.currentDelim st.buf mids hmids,
    processLines_cons, hclose]
  dsimp only
  rw [processLines_nil]
  rw [tokState_eta st hib]
  simp


/-- C6 (amended): comment text contributes nothing to emitted
Statements, with the line-comment rule applying to the line as the
scanner sees it (after block-comment processing): (a) a line free of
block-comment markers whose trimmed content begins with `--` or `#` is
skipped entirely, in any scanner state; (b) an inline `/* ... */` span is
erased — the line is processed exactly as if the span were absent; (c) a
multi-line `/* ... */` span made of an opening line, interior lines and a
closing line contributes nothing and leaves the state unchanged.  (The
counterexample shows the unamended claim fails when a line's leading `--`
sits inside an open block comment.) -/
theorem C6_comment_stripping :
    (∀ (st : TokState) (c : List Char),
      (['-', '-'].isPrefixOf (pyStrip c) = true ∨
        ['#'].isPrefixOf (pyStrip c) = true) →
      splitFirst ['/', '*'] c = none → splitFirst ['*', '/'] c = none →
      processLine st c = (st, [])) ∧
    (∀ (st : TokState) (x y z : List Char), st.inBlockComment = false →
      splitFirst ['/', '*'] x = none → splitFirst ['*', '/'] y = none →
      processLine st (x ++ (['/', '*'] ++ (y ++ (['*', '/'] ++ z)))) =
        processLine st (x ++ z)) ∧
    (∀ (st : TokState) (a b : List Char) (mids : List (List Char)),
      st.inBlockComment = false →
      splitFirst ['*', '/'] a = none →
      (∀ m ∈ mids, splitFirst ['*', '/'] m = none) →
      splitFirst ['*', '/'] b = none →
      processLines st ((['/', '*'] ++ a) :: (mids ++ [b ++ ['*', '/', '\n']]))
        = (st, [])) :=
  ⟨line_comment_skip, inline_span_skip, block_lines_skip⟩

/-- Witness for C6: a concrete `--` line is skipped; a concrete inline
span is erased; a concrete three-line block comment is erased. -/
theorem C6_witness :
    processLine initTokState "-- note\n".data = (initTokState, []) ∧
    processLine initTokState
        ("SELECT".data ++ (['/', '*'] ++ ("c".data ++ (['*', '/'] ++ " 1;\n".data))))
      = processLine initTokState ("SELECT".data ++ " 1;\n".data) ∧
    processLines initTokState
        ((['/', '*'] ++ "hdr".data) :: (["mid".data] ++ ["tail".data ++ ['*', '/', '\n']]))
      = (initTokState, []) :=
  ⟨C6_comment_stripping.1 initTokState "-- note\n".data (by decide) (by decide)
      (by decide),
   C6_comment_stripping.2.1 initTokState "SELECT".data "c".data " 1;\n".data rfl
      (by decide) (by decide),
   C6_comment_stripping.2.2 initTokState "hdr".data "tail".data ["mid".data] rfl
      (by decide) (by decide) (by decide)⟩



lemma concat_inj (x y : List Char) (a b : Char) (h : x ++ [a] = y ++ [b]) :
    a = b ∧ x = y := by
  have hr := congrArg List.reverse h
  simp only [List.reverse_append, List.reverse_cons, List.reverse_nil,
    List.nil_append, List.singleton_append] at hr
  injection hr with h1 h2
  exact ⟨h1, by
    have := congrArg List.reverse h2
    simpa using this⟩

/-- Splitting a newline-terminated line: if `body ++ [\n] = u ++ v` with
`v` non-empty, then `v` carries the final newline and everything else is
newline-free body text. -/
lemma split_last (body u v : List Char) (hbody : '\n' ∉ body)
    (h : body ++ ['\n'] = u ++ v) (hne : v ≠ []) :
    ∃ v2, v = v2 ++ ['\n'] ∧ '\n' ∉ v2 ∧ body = u ++ v2 := by
  rcases List.eq_nil_or_concat v with hv | ⟨v2, c, hv⟩
  · exact absurd hv hne
  · rw [List.concat_eq_append] at hv
    subst hv
    rw [← List.append_assoc] at h
    obtain ⟨hc, hb⟩ := concat_inj body (u ++ v2) '\n' c h
    refine ⟨v2, by rw [hc], ?_, hb⟩
    intro hmem
    exact hbody (by rw [hb]; exact List.mem_append_right u hmem)

lemma dropWhile_append_left (p : Char → Bool) :
    ∀ (a b : List Char), a.dropWhile p ≠ [] →
    (a ++ b).dropWhile p = a.dropWhile p ++ b := by
  intro a
  induction a with
  | nil => intro b h; exact absurd rfl h
  | cons c cs ih =>
    intro b h
    by_cases hc : p c
    · rw [List.dropWhile_cons, if_pos hc] at h
      rw [List.cons_append, List.dropWhile_cons, if_pos hc,
        List.dropWhile_cons, if_pos hc]
      exact ih b h
    · rw [List.cons_append, List.dropWhile_cons, if_neg (by simp [hc]),
        List.dropWhile_cons, if_neg (by simp [hc])]
      rfl

lemma ltrim_append_left (w v : List Char) (h : ltrim w ≠ []) :
    ltrim (w ++ v) = ltrim w ++ v :=
  dropWhile_append_left pySpace w v h

lemma rtrim_append_distrib (w v : List Char) (h : rtrim v ≠ []) :
    rtrim (w ++ v) = w ++ rtrim v := by
  have hne : v.reverse.dropWhile pySpace ≠ [] := by
    intro hx
    apply h
    rw [rtrim, hx]
    rfl
  rw [rtrim, List.reverse_append, dropWhile_append_left pySpace v.reverse w.reverse hne,
    List.reverse_append, List.reverse_reverse]
  rfl

lemma pyStrip_append_ws (w : List Char) (c : Char) (hc : pySpace c = true) :
    pyStrip (w ++ [c]) = pyStrip w := by
  by_cases hw : ltrim w = []
  · have h1 : ltrim (w ++ [c]) = [] := by
      rw [ltrim_eq_nil_iff]
      intro d hd
      rcases List.mem_append.mp hd with hm | hm
      · exact (ltrim_eq_nil_iff w).mp hw d hm
      · rw [List.mem_singleton.mp hm]; exact hc
    rw [pyStrip, pyStrip, h1, hw]
  · rw [pyStrip, pyStrip, ltrim_append_left w [c] hw, rtrim_append_ws _ c hc]


/-- Inline comment removal preserves the newline-terminated single-line
shape: the trailing newline survives (a removed span never contains it)
and no newline is introduced into the body. -/
lemma stripInline_shape :
    ∀ (n : Nat) (l body l2 : List Char), l.length ≤ n →
    l = body ++ ['\n'] → '\n' ∉ body → stripInline l = some l2 →
    ∃ b2, l2 = b2 ++ ['\n'] ∧ '\n' ∉ b2 := by
  intro n
  induction n with
  | zero =>
    intro l body l2 hn hl _ _
    subst hl
    simp at hn
  | succ n ih =>
    intro l body l2 hn hl hbody hsi
    rw [stripInline_eq] at hsi
    cases h1 : splitFirst ['/', '*'] l with
    | none =>
      rw [h1] at hsi
      injection hsi with hl2
      exact ⟨body, by rw [← hl2, hl], hbody⟩
    | some pr =>
      obtain ⟨x, rest⟩ := pr
      rw [h1] at hsi
      dsimp only at hsi
      cases h2 : splitFirst ['*', '/'] rest with
      | none => rw [h2] at hsi; simp at hsi
      | some pr2 =>
        obtain ⟨y, z⟩ := pr2
        rw [h2] at hsi
        dsimp only at hsi
        have e1 := splitFirst_some_eq ['/', '*'] l x rest h1
        have e2 := splitFirst_some_eq ['*', '/'] rest y z h2
        have hrestne : rest ≠ [] := by
          intro hr
          rw [hr] at e2
          have := congrArg List.length e2
          simp [List.length_append] at this
          omega
        obtain ⟨r2, hr2, hr2nl, hbody2⟩ :=
          split_last body (x ++ ['/', '*']) rest hbody (by rw [← hl]; exact e1) hrestne
        have hzne : z ≠ [] := by
          intro hz
          rw [hz, List.append_nil] at e2
          rw [e2] at hr2
          have hr2b : (y ++ ['*']) ++ ['/'] = r2 ++ ['\n'] := by
            simpa using hr2
          obtain ⟨hc, _⟩ := concat_inj (y ++ ['*']) r2 '/' '\n' hr2b
          simp at hc
        obtain ⟨z2, hz2, hz2nl, hr2eq⟩ :=
          split_last r2 (y ++ ['*', '/']) z hr2nl (by rw [← hr2]; exact e2) hzne
        have hxnl : '\n' ∉ x := by
          intro hmem
          apply hbody
          rw [hbody2]
          exact List.mem_append_left _ (List.mem_append_left _ hmem)
        have hlen1 := congrArg List.length e1
        have hlen2 := congrArg List.length e2
        simp [List.length_append] at hlen1 hlen2
        have hshape : x ++ z = (x ++ z2) ++ ['\n'] := by
          rw [hz2, List.append_assoc]
        refine ih (x ++ z) (x ++ z2) l2 ?_ hshape ?_ hsi
        · have := congrArg List.length hz2
          simp [List.length_append] at this ⊢
          omega
        · intro hmem
          rcases List.mem_append.mp hmem with hm | hm
          · exact hxnl hm
          · exact hz2nl hm


lemma check_no_newline (b2 : List Char) (hb2 : '\n' ∉ b2) :
    '\n' ∉ pyStrip (b2 ++ ['\n']) := by
  rw [pyStrip_append_ws b2 '\n' (by decide)]
  intro hmem
  exact hb2 (mem_pyStrip b2 '\n' hmem)

/-- The per-line body preserves the scanner-state invariant on
newline-terminated lines. -/
lemma processLineBody_inv (delim buf line body : List Char)
    (hdelim : '\n' ∉ delim)
    (hbuf : buf = [] ∨ (pyStrip buf ≠ [] ∧ ∃ u, buf = u ++ ['\n']))
    (hline : line = body ++ ['\n']) (hbody : '\n' ∉ body) :
    TokInv (processLineBody delim buf line).1 := by
  cases hsi : stripInline line with
  | none =>
    rw [processLineBody, hsi]
    exact ⟨hdelim, hbuf⟩
  | some line2 =>
    obtain ⟨b2, hl2, hb2nl⟩ :=
      stripInline_shape line.length line body line2 (le_refl _) hline hbody hsi
    rw [processLineBody, hsi]
    dsimp only
    by_cases c1 : pyStrip line2 = []
    · rw [if_pos c1]
      exact ⟨hdelim, hbuf⟩
    · rw [if_neg c1]
      by_cases c2 : delimToken.isPrefixOf ((pyStrip line2).map Char.toUpper) = true
      · rw [if_pos c2]
        refine ⟨?_, Or.inl rfl⟩
        intro hmem
        have h1 : '\n' ∈ (pyStrip line2).drop delimToken.length :=
          mem_pyStrip _ '\n' hmem
        have h2 : '\n' ∈ pyStrip line2 := List.drop_subset _ _ h1
        rw [hl2] at h2
        exact check_no_newline b2 hb2nl h2
      · rw [if_neg c2]
        by_cases c3 : (['-', '-'].isPrefixOf (pyStrip line2) ||
            ['#'].isPrefixOf (pyStrip line2)) = true
        · rw [if_pos c3]
          exact ⟨hdelim, hbuf⟩
        · rw [if_neg c3]
          by_cases c4 : delim ≠ [] ∧ delim.isSuffixOf (rtrim (buf ++ line2)) = true
          · rw [if_pos c4]
            exact ⟨hdelim, Or.inl rfl⟩
          · rw [if_neg c4]
            refine ⟨hdelim, Or.inr ⟨?_, buf ++ b2, by rw [hl2, List.append_assoc]⟩⟩
            intro hps
            apply c1
            rw [pyStrip_eq_nil_iff] at hps ⊢
            intro c hc
            exact hps c (List.mem_append_right buf hc)

/-- One line of processing preserves the scanner-state invariant. -/
lemma processLine_inv (st : TokState) (l : List Char)
    (hst : TokInv st) (hl : wfLine l) : TokInv (processLine st l).1 := by
  obtain ⟨body, hlb, hbody⟩ := hl
  by_cases hib : st.inBlockComment
  · rw [processLine, if_pos hib]
    cases hc : splitFirst ['*', '/'] l with
    | none => exact hst
    | some pr =>
      obtain ⟨p, q⟩ := pr
      dsimp only
      have e := splitFirst_some_eq ['*', '/'] l p q hc
      have hqne : q ≠ [] := by
        intro hq
        rw [hq, List.append_nil] at e
        rw [hlb] at e
        have eb : (p ++ ['*']) ++ ['/'] = body ++ ['\n'] := by simpa using e.symm
        obtain ⟨hcq, _⟩ := concat_inj (p ++ ['*']) body '/' '\n' eb
        simp at hcq
      obtain ⟨q2, hq2, hq2nl, _⟩ :=
        split_last body (p ++ ['*', '/']) q hbody (by rw [← hlb]; exact e) hqne
      exact processLineBody_inv st.currentDelim st.buf q q2 hst.1 hst.2 hq2 hq2nl
  · rw [processLine, if_neg hib]
    exact processLineBody_inv st.currentDelim st.buf l body hst.1 hst.2 hlb hbody

/-- The invariant holds at every state reached from the initial state on
well-formed input lines. -/
lemma runTokState_inv :
    ∀ (lines : List (List Char)) (st : TokState), TokInv st →
    (∀ x ∈ lines, wfLine x) → TokInv (runTokState st lines) := by
  intro lines
  induction lines with
  | nil => intro st h _; exact h
  | cons l ls ih =>
    intro st h hwf
    rw [runTokState, List.foldl_cons]
    exact ih (processLine st l).1
      (processLine_inv st l h (hwf l (List.mem_cons_self l ls)))
      (fun x hx => hwf x (List.mem_cons_of_mem l hx))


/-- The key emptiness argument: when the buffer already holds earlier
lines (ending in a newline, with some non-whitespace text) and a new line
is appended whose body has non-whitespace text, a successful
trailing-delimiter match cannot strip the result down to whitespace —
the delimiter is newline-free, so it cannot reach past the last line's
newline into the older buffered text. -/
lemma stmt_nonempty (delim u b2 : List Char)
    (hdnl : '\n' ∉ delim)
    (hbuf : pyStrip (u ++ ['\n']) ≠ [])
    (hb2nl : '\n' ∉ b2)
    (hb2 : pyStrip b2 ≠ [])
    (hsuf : delim.isSuffixOf (rtrim ((u ++ ['\n']) ++ (b2 ++ ['\n']))) = true) :
    pyStrip ((rtrim ((u ++ ['\n']) ++ (b2 ++ ['\n']))).take
      ((rtrim ((u ++ ['\n']) ++ (b2 ++ ['\n']))).length - delim.length)) ≠ [] := by
  have ha3ne : rtrim b2 ≠ [] := by
    intro h
    apply hb2
    rw [pyStrip_eq_nil_iff]
    exact (rtrim_eq_nil_iff b2).mp h
  have htest : rtrim ((u ++ ['\n']) ++ (b2 ++ ['\n']))
      = (u ++ ['\n']) ++ rtrim b2 := by
    rw [show (u ++ ['\n']) ++ (b2 ++ ['\n']) = ((u ++ ['\n']) ++ b2) ++ ['\n']
        from by simp,
      rtrim_append_ws _ '\n' (by decide),
      rtrim_append_distrib (u ++ ['\n']) b2 ha3ne]
  have ha3nl : '\n' ∉ rtrim b2 := fun h => hb2nl (mem_rtrim b2 '\n' h)
  rw [htest] at hsuf ⊢
  by_cases hk : delim.length ≤ (rtrim b2).length
  · rw [List.take_append_eq_append_take]
    have h1 : (u ++ ['\n']).length ≤
        ((u ++ ['\n']) ++ rtrim b2).length - delim.length := by
      simp [List.length_append]
      omega
    rw [List.take_of_length_le h1]
    intro hps
    apply hbuf
    rw [pyStrip_eq_nil_iff] at hps ⊢
    intro c hc
    exact hps c (List.mem_append_left _ hc)
  · exfalso
    have hsuf2 : delim <:+ (u ++ ['\n']) ++ rtrim b2 :=
      List.isSuffixOf_iff_suffix.mp hsuf
    have hsufn : ('\n' :: rtrim b2) <:+ (u ++ ['\n']) ++ rtrim b2 :=
      ⟨u, by simp⟩
    rcases List.suffix_or_suffix_of_suffix hsufn hsuf2 with h | h
    · exact hdnl (h.sublist.subset (List.mem_cons_self _ _))
    · have hle := h.sublist.length_le
      have heq : delim = '\n' :: rtrim b2 := by
        apply h.eq_of_length
        simp at hle ⊢
        omega
      exact hdnl (by rw [heq]; exact List.mem_cons_self _ _)

lemma processLineBody_clear (delim buf line body : List Char)
    (hdelim : '\n' ∉ delim) (hbufne : buf ≠ [])
    (hbufstrip : pyStrip buf ≠ []) (u : List Char) (hu : buf = u ++ ['\n'])
    (hline : line = body ++ ['\n']) (hbody : '\n' ∉ body)
    (hclear : (processLineBody delim buf line).1.buf = []) :
    (processLineBody delim buf line).2 ≠ [] := by
  cases hsi : stripInline line with
  | none =>
    rw [processLineBody, hsi] at hclear
    exact absurd hclear hbufne
  | some line2 =>
    obtain ⟨b2, hl2, hb2nl⟩ :=
      stripInline_shape line.length line body line2 (le_refl _) hline hbody hsi
    rw [processLineBody, hsi] at hclear ⊢
    dsimp only at hclear ⊢
    by_cases c1 : pyStrip line2 = []
    · rw [if_pos c1] at hclear
      exact absurd hclear hbufne
    · rw [if_neg c1] at hclear ⊢
      by_cases c2 : delimToken.isPrefixOf ((pyStrip line2).map Char.toUpper) = true
      · rw [if_pos c2]
        rw [if_neg hbufne, if_neg hbufstrip]
        simp
      · rw [if_neg c2] at hclear ⊢
        by_cases c3 : (['-', '-'].isPrefixOf (pyStrip line2) ||
            ['#'].isPrefixOf (pyStrip line2)) = true
        · rw [if_pos c3] at hclear
          exact absurd hclear hbufne
        · rw [if_neg c3] at hclear ⊢
          by_cases c4 : delim ≠ [] ∧ delim.isSuffixOf (rtrim (buf ++ line2)) = true
          · rw [if_pos c4]
            have hb2s : pyStrip b2 ≠ [] := by
              intro h
              apply c1
              rw [hl2, pyStrip_append_ws b2 '\n' (by decide)]
              exact h
            have hstmt := stmt_nonempty delim u b2 hdelim
              (by rw [← hu]; exact hbufstrip) hb2nl hb2s
              (by rw [← hu, ← hl2]; exact c4.2)
            rw [← hu, ← hl2] at hstmt
            rw [if_neg hstmt]
            simp
          · rw [if_neg c4] at hclear
            have : buf = [] := (List.append_eq_nil.mp hclear).1
            exact absurd this hbufne

lemma processLine_clear (st : TokState) (l : List Char)
    (hst : TokInv st) (hl : wfLine l) (hbufne : st.buf ≠ [])
    (hclear : (processLine st l).1.buf = []) :
    (processLine st l).2 ≠ [] := by
  obtain ⟨body, hlb, hbody⟩ := hl
  obtain ⟨hdelim, hbufor⟩ := hst
  rcases hbufor with hb | ⟨hbstrip, u, hu⟩
  · exact absurd hb hbufne
  by_cases hib : st.inBlockComment
  · rw [processLine, if_pos hib] at hclear ⊢
    cases hc : splitFirst ['*', '/'] l with
    | none =>
      rw [hc] at hclear
      exact absurd hclear hbufne
    | some pr =>
      obtain ⟨p, q⟩ := pr
      rw [hc] at hclear
      dsimp only at hclear ⊢
      have e := splitFirst_some_eq ['*', '/'] l p q hc
      have hqne : q ≠ [] := by
        intro hq
        rw [hq, List.append_nil] at e
        rw [hlb] at e
        have eb : (p ++ ['*']) ++ ['/'] = body ++ ['\n'] := by simpa using e.symm
        obtain ⟨hcq, _⟩ := concat_inj (p ++ ['*']) body '/' '\n' eb
        simp at hcq
      obtain ⟨q2, hq2, hq2nl, _⟩ :=
        split_last body (p ++ ['*', '/']) q hbody (by rw [← hlb]; exact e) hqne
      exact processLineBody_clear st.currentDelim st.buf q q2 hdelim hbufne
        hbstrip u hu hq2 hq2nl hclear
  · rw [processLine, if_neg hib] at hclear ⊢
    exact processLineBody_clear st.currentDelim st.buf l body hdelim hbufne
      hbstrip u hu hlb hbody hclear


/-- C9: throughout tokenization of a stream of well-formed
(newline-terminated) lines, the pending buffer is never implicitly
dropped before end-of-stream: at every step from a reachable state, if
the buffer goes from non-empty to empty then a Statement (or a
delimiter-change flush) is emitted in that same step. -/
theorem C9_buffer_invariant (pre : List (List Char)) (l : List Char)
    (hpre : ∀ x ∈ pre, wfLine x) (hl : wfLine l)
    (hbuf : (runTokState initTokState pre).buf ≠ [])
    (hclear : (processLine (runTokState initTokState pre) l).1.buf = []) :
    (processLine (runTokState initTokState pre) l).2 ≠ [] :=
  processLine_clear (runTokState initTokState pre) l
    (runTokState_inv pre initTokState ⟨by decide, Or.inl rfl⟩ hpre)
    hl hbuf hclear

/-- Witness for C9: after buffering the line `S`, the line `1;` empties
the buffer and does emit the Statement `S\n1`. -/
theorem C9_witness :
    (runTokState initTokState [['S', '\n']]).buf ≠ [] ∧
    (processLine (runTokState initTokState [['S', '\n']]) ['1', ';', '\n']).1.buf
      = [] ∧
    (processLine (runTokState initTokState [['S', '\n']]) ['1', ';', '\n']).2 ≠ [] :=
  ⟨by decide, by decide,
    C9_buffer_invariant [['S', '\n']] ['1', ';', '\n']
      (by
        intro x hx
        rw [List.mem_singleton] at hx
        subst hx
        exact ⟨['S'], rfl, by decide⟩)
      ⟨['1', ';'], rfl, by decide⟩ (by decide) (by decide)⟩

end DumpTool
